import Mathlib

/-!
# Verification of the Trading-Bot core against its specification

Shallow embedding of the core components of the repository:

* `src/bot/feeds/bar_aggregator.py`   — `BarAggregator`
* `src/engine/position.py`            — `Position` (stops, trailing stop)
* `src/engine/broker.py`              — backtest stop/target resolution
* `src/bot/engine/reconciler.py`      — `Reconciler`
* `src/bot/risk/manager.py`           — `RiskManager`
* `src/bot/engine/multi_tf_engine.py` — `MultiTimeframeEngine`

Prices, volumes and monetary amounts are embedded as rationals (the Python
source uses floats; all the claims under examination are about control flow
and exact comparisons, not float rounding).  Timestamps of 1-minute bars are
whole minutes since an epoch, so `ts % 60` is the Python `ts.minute`.
Wall-clock inputs (`datetime.utcnow()`, `date.today()`) and external
collaborators (broker fills, strategy signals, session filter) are passed in
as explicit oracle parameters.
-/

namespace TradingBot

/-! ## Bars and the bar aggregator (`src/bot/feeds/bar_aggregator.py`) -/

/-- A 1-minute (or aggregated) OHLCV bar.  `ts` is in whole minutes UTC. -/
structure Bar where
  ts : ℕ
  open_ : ℚ
  high : ℚ
  low : ℚ
  close : ℚ
  volume : ℚ
deriving DecidableEq

/-- `BarAggregator._get_window_start`: `floored_minute = (ts.minute // N) * N;
ts.replace(minute=floored_minute, second=0, microsecond=0)`.  With `ts` in
whole minutes, `ts.minute = ts % 60`. -/
def getWindowStart (N ts : ℕ) : ℕ :=
  ts - ts % 60 + ts % 60 / N * N

/-- The terminal-minute test of `BarAggregator.on_minute_bar`:
`bar_minute_in_window = (ts.minute % self.tf_minutes) + 1;
if bar_minute_in_window >= self.tf_minutes`. -/
abbrev isTerminal (N ts : ℕ) : Prop := N ≤ ts % 60 % N + 1

/-- `BarAggregator._aggregate`: combine buffered 1-minute bars into one bar
stamped at the buffer's window start.  Only ever called on a non-empty
buffer; the empty case is given a junk value. -/
def aggregate : List Bar → ℕ → Bar
  | [], w => { ts := w, open_ := 0, high := 0, low := 0, close := 0, volume := 0 }
  | b :: rest, w =>
    { ts := w
      open_ := b.open_
      high := (rest.map Bar.high).foldl max b.high
      low := (rest.map Bar.low).foldl min b.low
      close := ((b :: rest).getLast (List.cons_ne_nil b rest)).close
      volume := ((b :: rest).map Bar.volume).sum }

/-- The per-ticker buffer: `{"window_start": datetime, "bars": [series, ...]}`. -/
structure AggBuffer where
  windowStart : ℕ
  bars : List Bar
deriving DecidableEq

/-- `none` models "ticker not yet in `self._buffers`". -/
abbrev AggState := Option AggBuffer

/-- `BarAggregator.on_minute_bar` for a single ticker.  Returns the new buffer
state and the list of bars emitted through the callback (in order). -/
def onMinuteBar (N : ℕ) (st : AggState) (bar : Bar) : AggState × List Bar :=
  if N = 1 then
    -- passthrough for the 1m timeframe: the buffer is never touched
    (st, [bar])
  else
    let w := getWindowStart N bar.ts
    -- get or create the buffer for this ticker
    let buf := st.getD { windowStart := w, bars := [] }
    -- if this bar belongs to a new window, emit the previous window first
    let p1 : AggBuffer × List Bar :=
      if w ≠ buf.windowStart then
        (⟨w, []⟩, if buf.bars ≠ [] then [aggregate buf.bars buf.windowStart] else [])
      else (buf, [])
    -- append the bar
    let buf1 : AggBuffer := ⟨p1.1.windowStart, p1.1.bars ++ [bar]⟩
    -- if this is the last minute of the window, emit and advance the window
    let p2 : AggBuffer × List Bar :=
      if isTerminal N bar.ts then
        if buf1.bars ≠ [] then
          (⟨w + N, []⟩, [aggregate buf1.bars buf1.windowStart])
        else (buf1, [])
      else (buf1, [])
    (some p2.1, p1.2 ++ p2.2)

/-- Feed a list of 1-minute bars through the aggregator, collecting all
emitted bars in order. -/
def runAgg (N : ℕ) : AggState → List Bar → AggState × List Bar
  | st, [] => (st, [])
  | st, b :: rest =>
    let r := onMinuteBar N st b
    let r2 := runAgg N r.1 rest
    (r2.1, r.2 ++ r2.2)

/-! ### Helper lemmas about folds and runs -/

lemma le_foldl_max (a : ℚ) (l : List ℚ) : a ≤ l.foldl max a := by
  induction l generalizing a with
  | nil => exact le_refl a
  | cons x xs ih => exact le_trans (le_max_left a x) (ih (max a x))

lemma mem_le_foldl_max (a x : ℚ) (l : List ℚ) (hx : x ∈ l) : x ≤ l.foldl max a := by
  induction l generalizing a with
  | nil => cases hx
  | cons y ys ih =>
    rcases List.mem_cons.mp hx with h | h
    · subst h
      exact le_trans (le_max_right a x) (le_foldl_max (max a x) ys)
    · exact ih (max a y) h

lemma foldl_max_mem (a : ℚ) (l : List ℚ) : l.foldl max a = a ∨ l.foldl max a ∈ l := by
  induction l generalizing a with
  | nil => exact Or.inl rfl
  | cons x xs ih =>
    rcases ih (max a x) with h | h
    · rcases max_cases a x with ⟨hm, _⟩ | ⟨hm, _⟩
      · exact Or.inl (by rw [List.foldl_cons, h, hm])
      · exact Or.inr (by rw [List.foldl_cons, h, hm]; exact List.mem_cons_self x xs)
    · exact Or.inr (List.mem_cons_of_mem x h)

lemma foldl_min_le (a : ℚ) (l : List ℚ) : l.foldl min a ≤ a := by
  induction l generalizing a with
  | nil => exact le_refl a
  | cons x xs ih => exact le_trans (ih (min a x)) (min_le_left a x)

lemma foldl_min_le_mem (a x : ℚ) (l : List ℚ) (hx : x ∈ l) : l.foldl min a ≤ x := by
  induction l generalizing a with
  | nil => cases hx
  | cons y ys ih =>
    rcases List.mem_cons.mp hx with h | h
    · subst h
      exact le_trans (foldl_min_le (min a x) ys) (min_le_right a x)
    · exact ih (min a y) h

lemma foldl_min_mem (a : ℚ) (l : List ℚ) : l.foldl min a = a ∨ l.foldl min a ∈ l := by
  induction l generalizing a with
  | nil => exact Or.inl rfl
  | cons x xs ih =>
    rcases ih (min a x) with h | h
    · rcases min_cases a x with ⟨hm, _⟩ | ⟨hm, _⟩
      · exact Or.inl (by rw [List.foldl_cons, h, hm])
      · exact Or.inr (by rw [List.foldl_cons, h, hm]; exact List.mem_cons_self x xs)
    · exact Or.inr (List.mem_cons_of_mem x h)

lemma runAgg_append (N : ℕ) (st : AggState) (l1 l2 : List Bar) :
    runAgg N st (l1 ++ l2) =
      ((runAgg N (runAgg N st l1).1 l2).1,
       (runAgg N st l1).2 ++ (runAgg N (runAgg N st l1).1 l2).2) := by
  induction l1 generalizing st with
  | nil => simp [runAgg]
  | cons b rest ih =>
    simp only [List.cons_append, runAgg, List.append_eq]
    rw [ih]
    simp [List.append_assoc]

/-- In-window, non-terminal bars just accumulate in the buffer. -/
lemma onMinuteBar_fill (N : ℕ) (hN : 2 ≤ N) (W : ℕ) (buf : List Bar) (b : Bar)
    (hw : getWindowStart N b.ts = W) (ht : ¬ isTerminal N b.ts) :
    onMinuteBar N (some ⟨W, buf⟩) b = (some ⟨W, buf ++ [b]⟩, []) := by
  have hN1 : N ≠ 1 := by omega
  simp [onMinuteBar, hN1, hw, ht]

lemma runAgg_fill (N : ℕ) (hN : 2 ≤ N) (W : ℕ) (buf : List Bar) (l : List Bar)
    (hw : ∀ x ∈ l, getWindowStart N x.ts = W) (ht : ∀ x ∈ l, ¬ isTerminal N x.ts) :
    runAgg N (some ⟨W, buf⟩) l = (some ⟨W, buf ++ l⟩, []) := by
  induction l generalizing buf with
  | nil => simp [runAgg]
  | cons b rest ih =>
    have h1 := onMinuteBar_fill N hN W buf b (hw b (List.mem_cons_self b rest))
      (ht b (List.mem_cons_self b rest))
    have h2 := ih (buf ++ [b]) (fun x hx => hw x (List.mem_cons_of_mem b hx))
      (fun x hx => ht x (List.mem_cons_of_mem b hx))
    simp [runAgg, h1, h2]

/-- The terminal in-window bar triggers the emission and advances the window. -/
lemma onMinuteBar_terminal (N : ℕ) (hN : 2 ≤ N) (W : ℕ) (buf : List Bar) (b : Bar)
    (hw : getWindowStart N b.ts = W) (ht : isTerminal N b.ts) :
    onMinuteBar N (some ⟨W, buf⟩) b =
      (some ⟨W + N, []⟩, [aggregate (buf ++ [b]) W]) := by
  have hN1 : N ≠ 1 := by omega
  simp [onMinuteBar, hN1, hw, ht]

/-! ### Claims C5 and C4 — aggregation fields, late bars -/

/-- Concrete 1-minute bars filling the 5-minute window starting at minute 870
(= 14:30 UTC), the last one terminal. -/
def c5b : Bar := ⟨871, 10, 11, 9, 10, 100⟩

def c5rest : List Bar :=
  [⟨872, 10, 12, 10, 11, 200⟩, ⟨873, 11, 23/2, 21/2, 11, 300⟩, ⟨874, 11, 13, 8, 12, 400⟩]

/-- Claim C5 (confirmed): for every non-empty sequence of 1-minute bars that
all fall in the N-minute window `W`, none terminal except the last, feeding
them into an empty buffer for `W` emits exactly one aggregated bar whose
timestamp is the window start of every contained bar, whose open is the first
bar's open, close the last bar's close, high the maximum high (an upper bound
that is attained), low the minimum low (a lower bound that is attained), and
volume the sum of volumes; and for N = 1 `on_minute_bar` passes the input bar
through unchanged. -/
theorem aggregated_bar_fields (N W : ℕ) (hN : 2 ≤ N) (b : Bar) (rest : List Bar)
    (hw : ∀ x ∈ b :: rest, getWindowStart N x.ts = W)
    (hmid : ∀ x ∈ (b :: rest).dropLast, ¬ isTerminal N x.ts)
    (hlast : isTerminal N ((b :: rest).getLast (List.cons_ne_nil b rest)).ts) :
    runAgg N (some ⟨W, []⟩) (b :: rest) = (some ⟨W + N, []⟩, [aggregate (b :: rest) W])
    ∧ (∀ x ∈ b :: rest, (aggregate (b :: rest) W).ts = getWindowStart N x.ts)
    ∧ (aggregate (b :: rest) W).open_ = b.open_
    ∧ (aggregate (b :: rest) W).close
        = ((b :: rest).getLast (List.cons_ne_nil b rest)).close
    ∧ (∀ x ∈ b :: rest, x.high ≤ (aggregate (b :: rest) W).high)
    ∧ ((aggregate (b :: rest) W).high ∈ (b :: rest).map Bar.high)
    ∧ (∀ x ∈ b :: rest, (aggregate (b :: rest) W).low ≤ x.low)
    ∧ ((aggregate (b :: rest) W).low ∈ (b :: rest).map Bar.low)
    ∧ (aggregate (b :: rest) W).volume = ((b :: rest).map Bar.volume).sum
    ∧ (∀ st bar1, onMinuteBar 1 st bar1 = (st, [bar1])) := by
  have hne : b :: rest ≠ [] := List.cons_ne_nil b rest
  have hlq : (b :: rest).dropLast ++ [(b :: rest).getLast hne] = b :: rest :=
    List.dropLast_append_getLast hne
  refine ⟨?_, ?_, rfl, rfl, ?_, ?_, ?_, ?_, rfl, ?_⟩
  · -- the run: fill with the non-terminal prefix, then the terminal last bar
    conv_lhs => rw [← hlq]
    rw [runAgg_append,
      runAgg_fill N hN W [] _ (fun x hx => hw x (List.dropLast_subset _ hx)) hmid]
    have hlw : getWindowStart N ((b :: rest).getLast hne).ts = W :=
      hw _ (List.getLast_mem hne)
    simp only [runAgg, List.nil_append]
    rw [onMinuteBar_terminal N hN W _ _ hlw hlast]
    simp only [runAgg, List.nil_append]
    rw [hlq]
    simp
  · intro x hx
    simp [aggregate, hw x hx]
  · intro x hx
    rcases List.mem_cons.mp hx with h | h
    · subst h
      exact le_foldl_max _ _
    · exact mem_le_foldl_max _ _ _ (List.mem_map_of_mem Bar.high h)
  · simp only [aggregate, List.map_cons]
    rcases foldl_max_mem b.high (rest.map Bar.high) with h | h
    · rw [h]
      exact List.mem_cons_self _ _
    · exact List.mem_cons_of_mem _ h
  · intro x hx
    rcases List.mem_cons.mp hx with h | h
    · subst h
      exact foldl_min_le _ _
    · exact foldl_min_le_mem _ _ _ (List.mem_map_of_mem Bar.low h)
  · simp only [aggregate, List.map_cons]
    rcases foldl_min_mem b.low (rest.map Bar.low) with h | h
    · rw [h]
      exact List.mem_cons_self _ _
    · exact List.mem_cons_of_mem _ h
  · intro st bar1
    simp [onMinuteBar]

/-- Witness for C5 at a concrete window of four bars. -/
theorem aggregated_bar_fields_witness :
    ((2 ≤ 5 ∧ (∀ x ∈ c5b :: c5rest, getWindowStart 5 x.ts = 870))
      ∧ (∀ x ∈ (c5b :: c5rest).dropLast, ¬ isTerminal 5 x.ts)
      ∧ isTerminal 5 ((c5b :: c5rest).getLast (List.cons_ne_nil c5b c5rest)).ts)
    ∧ runAgg 5 (some ⟨870, []⟩) (c5b :: c5rest)
        = (some ⟨870 + 5, []⟩, [aggregate (c5b :: c5rest) 870]) :=
  ⟨⟨⟨by decide, by decide⟩, by decide, by decide⟩,
    (aggregated_bar_fields 5 870 (by decide) c5b c5rest (by decide) (by decide)
      (by decide)).1⟩

/-- A 5-minute window is filled and emitted (bars 870–874); then a late bar
for the already-completed window 870 arrives; then a bar of the next window. -/
def c4Late : Bar := ⟨873, 9, 9, 9, 9, 9⟩

def c4Run : List Bar :=
  [⟨870, 1, 1, 1, 1, 1⟩, ⟨871, 2, 2, 2, 2, 1⟩, ⟨872, 3, 3, 3, 3, 1⟩,
   ⟨873, 4, 4, 4, 4, 1⟩, ⟨874, 5, 5, 5, 5, 1⟩, c4Late, ⟨875, 6, 6, 6, 6, 1⟩]

/-- Counterexample to C4 as stated: in the concrete run `c4Run` the late bar
(for window 870, whose aggregate was already emitted at bar 874) IS buffered
— the buffer is rebased back to window 870 and holds the late bar — and the
completed window 870 is subsequently emitted a SECOND time. -/
theorem late_bar_dropped_counterexample :
    (runAgg 5 none (List.take 6 c4Run)).1 = some ⟨870, [c4Late]⟩
    ∧ ((runAgg 5 none c4Run).2.filter (fun e => e.ts == 870)).length = 2 := by
  decide

/-- Claim C4 (corrected, amended): a 1-minute bar arriving late for a
completed window is NOT dropped: the buffer is rebased to the late bar's
window and the bar is buffered; a subsequent bar belonging to a different
window then causes the completed window's aggregate (built from the late
bars alone) to be emitted again. -/
theorem late_bar_rebases_and_reemits (N : ℕ) (hN : 2 ≤ N) (Wdone : ℕ) (b b2 : Bar)
    (hw : getWindowStart N b.ts ≠ Wdone)
    (ht : ¬ isTerminal N b.ts)
    (hw2 : getWindowStart N b2.ts ≠ getWindowStart N b.ts) :
    onMinuteBar N (some ⟨Wdone, []⟩) b = (some ⟨getWindowStart N b.ts, [b]⟩, [])
    ∧ ∃ e ∈ (onMinuteBar N (some ⟨getWindowStart N b.ts, [b]⟩) b2).2,
        e.ts = getWindowStart N b.ts := by
  have hN1 : N ≠ 1 := by omega
  constructor
  · simp [onMinuteBar, hN1, hw, ht]
  · refine ⟨aggregate [b] (getWindowStart N b.ts), ?_, rfl⟩
    simp only [onMinuteBar, hN1, if_neg hN1, Option.getD_some]
    by_cases h2 : isTerminal N b2.ts <;>
      simp [hw2, h2]

/-- Witness for the amended C4 at the concrete late bar of `c4Run`. -/
theorem late_bar_rebases_and_reemits_witness :
    ((2 ≤ 5 ∧ getWindowStart 5 c4Late.ts ≠ 875) ∧ ¬ isTerminal 5 c4Late.ts
      ∧ getWindowStart 5 (875:ℕ) ≠ getWindowStart 5 c4Late.ts)
    ∧ onMinuteBar 5 (some ⟨875, []⟩) c4Late
        = (some ⟨getWindowStart 5 c4Late.ts, [c4Late]⟩, []) :=
  ⟨⟨⟨by decide, by decide⟩, by decide, by decide⟩,
    (late_bar_rebases_and_reemits 5 (by decide) 875 c4Late ⟨875, 6, 6, 6, 6, 1⟩
      (by decide) (by decide) (by decide)).1⟩

/-! ## Positions, stops and trailing stops (`src/engine/position.py`) -/

/-- `Position.direction` ranges over "long"/"short" only. -/
inductive Dir
  | long
  | short
deriving DecidableEq

/-- `Position`: the local open-position record.  `entryPrice`, `quantity` and
`direction` come from the wrapped `Trade`. -/
structure Pos where
  direction : Dir
  entryPrice : ℚ
  quantity : ℚ
  stopLoss : Option ℚ
  takeProfit : Option ℚ
  trailingStop : Option ℚ
  trailingStopDistance : Option ℚ
deriving DecidableEq

/-- `Position._get_effective_stop`: the tighter of `stop_loss` and
`trailing_stop`.  When exactly one is set, the source returns
`self.stop_loss or self.trailing_stop`, so a `stop_loss` of `0.0` is falsy
and falls through to the trailing stop. -/
def getEffectiveStop (p : Pos) : Option ℚ :=
  match p.stopLoss, p.trailingStop with
  | some sl, some t =>
    some (match p.direction with
          | .long => max sl t
          | .short => min sl t)
  | some sl, none => if sl ≠ 0 then some sl else none
  | none, t => t

/-- `Position.update_trailing_stop`: commit the new level only when it
tightens (up for longs, down for shorts). -/
def updateTrailingStop (p : Pos) (price : ℚ) : Pos :=
  match p.trailingStopDistance with
  | none => p
  | some d =>
    match p.direction with
    | .long =>
      let ns := price - d
      match p.trailingStop with
      | none => { p with trailingStop := some ns }
      | some t => if ns > t then { p with trailingStop := some ns } else p
    | .short =>
      let ns := price + d
      match p.trailingStop with
      | none => { p with trailingStop := some ns }
      | some t => if ns < t then { p with trailingStop := some ns } else p

/-- `Position.is_stop_hit`. -/
def isStopHit (p : Pos) (lo hi : ℚ) : Bool :=
  match getEffectiveStop p with
  | none => false
  | some es =>
    match p.direction with
    | .long => decide (lo ≤ es)
    | .short => decide (es ≤ hi)

/-- `Position.is_target_hit`. -/
def isTargetHit (p : Pos) (lo hi : ℚ) : Bool :=
  match p.takeProfit with
  | none => false
  | some tp =>
    match p.direction with
    | .long => decide (tp ≤ hi)
    | .short => decide (lo ≤ tp)

/-- A sequence of `update_trailing_stop` calls over the life of a position. -/
def applyTrailingUpdates (p : Pos) (prices : List ℚ) : Pos :=
  prices.foldl updateTrailingStop p

lemma updateTrailingStop_long_none (ep q : ℚ) (sl tp : Option ℚ) (d price : ℚ) :
    updateTrailingStop ⟨.long, ep, q, sl, tp, none, some d⟩ price
      = ⟨.long, ep, q, sl, tp, some (price - d), some d⟩ := rfl

lemma updateTrailingStop_long_some (ep q : ℚ) (sl tp : Option ℚ) (t d price : ℚ) :
    updateTrailingStop ⟨.long, ep, q, sl, tp, some t, some d⟩ price
      = ⟨.long, ep, q, sl, tp, some (max t (price - d)), some d⟩ := by
  show (if price - d > t then _ else _) = _
  rcases lt_or_ge t (price - d) with h | h
  · rw [if_pos h, max_eq_right h.le]
  · rw [if_neg (not_lt.mpr h), max_eq_left h]

lemma updateTrailingStop_short_none (ep q : ℚ) (sl tp : Option ℚ) (d price : ℚ) :
    updateTrailingStop ⟨.short, ep, q, sl, tp, none, some d⟩ price
      = ⟨.short, ep, q, sl, tp, some (price + d), some d⟩ := rfl

lemma updateTrailingStop_short_some (ep q : ℚ) (sl tp : Option ℚ) (t d price : ℚ) :
    updateTrailingStop ⟨.short, ep, q, sl, tp, some t, some d⟩ price
      = ⟨.short, ep, q, sl, tp, some (min t (price + d)), some d⟩ := by
  show (if price + d < t then _ else _) = _
  rcases lt_or_ge (price + d) t with h | h
  · rw [if_pos h, min_eq_right h.le]
  · rw [if_neg (not_lt.mpr h), min_eq_left h]

lemma getEffectiveStop_long_some (ep q : ℚ) (sl : Option ℚ) (tp td : Option ℚ) (u : ℚ) :
    getEffectiveStop ⟨.long, ep, q, sl, tp, some u, td⟩
      = some ((sl.map (fun s => max s u)).getD u) := by
  cases sl <;> rfl

lemma getEffectiveStop_short_some (ep q : ℚ) (sl : Option ℚ) (tp td : Option ℚ) (u : ℚ) :
    getEffectiveStop ⟨.short, ep, q, sl, tp, some u, td⟩
      = some ((sl.map (fun s => min s u)).getD u) := by
  cases sl <;> rfl

lemma updateTrailingStop_step (p : Pos) (price a : ℚ)
    (ha : getEffectiveStop p = some a) :
    (updateTrailingStop p price).direction = p.direction
    ∧ ∃ b, getEffectiveStop (updateTrailingStop p price) = some b
      ∧ (p.direction = .long → a ≤ b) ∧ (p.direction = .short → b ≤ a) := by
  obtain ⟨dir, ep, q, sl, tp, ts, td⟩ := p
  cases td with
  | none => exact ⟨rfl, a, ha, fun _ => le_refl a, fun _ => le_refl a⟩
  | some d =>
    cases dir with
    | long =>
      cases ts with
      | none =>
        rw [updateTrailingStop_long_none, getEffectiveStop_long_some]
        cases sl with
        | none => exact absurd ha (by simp [getEffectiveStop])
        | some s =>
          rcases eq_or_ne s 0 with h0 | h0
          · exact absurd ha (by simp [getEffectiveStop, h0])
          · have ha' : s = a := by simpa [getEffectiveStop, h0] using ha
            subst ha'
            exact ⟨rfl, max s (price - d), rfl,
              fun _ => le_max_left _ _, fun h => nomatch h⟩
      | some t =>
        rw [updateTrailingStop_long_some, getEffectiveStop_long_some]
        rw [getEffectiveStop_long_some] at ha
        cases sl with
        | none =>
          have ha' : t = a := by simpa using ha
          subst ha'
          exact ⟨rfl, max t (price - d), rfl,
            fun _ => le_max_left _ _, fun h => nomatch h⟩
        | some s =>
          have ha' : max s t = a := by simpa using ha
          subst ha'
          exact ⟨rfl, max s (max t (price - d)), rfl,
            fun _ => max_le_max (le_refl s) (le_max_left _ _),
            fun h => nomatch h⟩
    | short =>
      cases ts with
      | none =>
        rw [updateTrailingStop_short_none, getEffectiveStop_short_some]
        cases sl with
        | none => exact absurd ha (by simp [getEffectiveStop])
        | some s =>
          rcases eq_or_ne s 0 with h0 | h0
          · exact absurd ha (by simp [getEffectiveStop, h0])
          · have ha' : s = a := by simpa [getEffectiveStop, h0] using ha
            subst ha'
            exact ⟨rfl, min s (price + d), rfl,
              fun h => by simp at h, fun _ => min_le_left _ _⟩
      | some t =>
        rw [updateTrailingStop_short_some, getEffectiveStop_short_some]
        rw [getEffectiveStop_short_some] at ha
        cases sl with
        | none =>
          have ha' : t = a := by simpa using ha
          subst ha'
          exact ⟨rfl, min t (price + d), rfl,
            fun h => by simp at h, fun _ => min_le_left _ _⟩
        | some s =>
          have ha' : min s t = a := by simpa using ha
          subst ha'
          exact ⟨rfl, min s (min t (price + d)), rfl,
            fun h => by simp at h,
            fun _ => min_le_min (le_refl s) (min_le_left _ _)⟩

/-- Claim C8 (confirmed): over the life of a position, after any sequence of
`update_trailing_stop` calls with arbitrary prices, a long position's
effective stop never decreases and a short position's effective stop never
increases. -/
theorem effective_stop_monotone (p : Pos) (prices : List ℚ) (a b : ℚ)
    (ha : getEffectiveStop p = some a)
    (hb : getEffectiveStop (applyTrailingUpdates p prices) = some b) :
    (p.direction = .long → a ≤ b) ∧ (p.direction = .short → b ≤ a) := by
  induction prices generalizing p a with
  | nil =>
    simp only [applyTrailingUpdates, List.foldl_nil] at hb
    rw [ha] at hb
    obtain rfl : a = b := Option.some.inj hb
    exact ⟨fun _ => le_refl a, fun _ => le_refl a⟩
  | cons price rest ih =>
    obtain ⟨hdir, c, hc, hlc, hsc⟩ := updateTrailingStop_step p price a ha
    have hres := ih (updateTrailingStop p price) c hc
      (by simpa [applyTrailingUpdates] using hb)
    constructor
    · intro hl
      exact le_trans (hlc hl) (hres.1 (by rw [hdir, hl]))
    · intro hs
      exact le_trans (hres.2 (by rw [hdir, hs])) (hsc hs)

/-- Witness for C8: a long position with a 2-point trailing distance over a
rising-then-falling price path. -/
lemma effective_stop_monotone_witness_start :
    getEffectiveStop ⟨.long, 100, 10, some 98, some 110, none, some 2⟩ = some 98 := by
  norm_num [getEffectiveStop]

lemma effective_stop_monotone_witness_end :
    getEffectiveStop (applyTrailingUpdates
      ⟨.long, 100, 10, some 98, some 110, none, some 2⟩ [103, 107, 101]) = some 105 := by
  have h1 : applyTrailingUpdates ⟨.long, 100, 10, some 98, some 110, none, some 2⟩
      [103, 107, 101] = ⟨.long, 100, 10, some 98, some 110, some 105, some 2⟩ := by
    simp only [applyTrailingUpdates, List.foldl_cons, List.foldl_nil,
      updateTrailingStop_long_none, updateTrailingStop_long_some]
    norm_num
  rw [h1, getEffectiveStop_long_some]
  norm_num

theorem effective_stop_monotone_witness :
    (getEffectiveStop ⟨.long, 100, 10, some 98, some 110, none, some 2⟩ = some 98
      ∧ getEffectiveStop (applyTrailingUpdates
          ⟨.long, 100, 10, some 98, some 110, none, some 2⟩ [103, 107, 101]) = some 105)
    ∧ (Pos.direction ⟨.long, 100, 10, some 98, some 110, none, some 2⟩ = .long → (98:ℚ) ≤ 105)
    ∧ (Pos.direction ⟨.long, 100, 10, some 98, some 110, none, some 2⟩ = .short → (105:ℚ) ≤ 98) :=
  ⟨⟨effective_stop_monotone_witness_start, effective_stop_monotone_witness_end⟩,
    effective_stop_monotone ⟨.long, 100, 10, some 98, some 110, none, some 2⟩
      [103, 107, 101] 98 105 effective_stop_monotone_witness_start
      effective_stop_monotone_witness_end⟩

/-! ## Stop/target exit selection

`MultiTimeframeEngine._check_stops` (live) versus
`SimBroker.check_stops_and_targets` / `_resolve_both_hit` (the backtest
reference semantics in `src/engine/broker.py`). -/

inductive ExitReason
  | stopLoss
  | takeProfit
deriving DecidableEq

/-- Live engine `MultiTimeframeEngine._check_stops`: `if stop_hit: close
with reason stop_loss; elif target_hit: close with reason take_profit`.
The stop branch is taken unconditionally whenever the stop is hit. -/
def checkStopsReason (p : Pos) (lo hi : ℚ) : Option ExitReason :=
  if isStopHit p lo hi then some .stopLoss
  else if isTargetHit p lo hi then some .takeProfit
  else none

/-- `Position.get_stop_fill_price`. -/
def getStopFillPrice (p : Pos) : Option ℚ := getEffectiveStop p

/-- `Position.get_target_fill_price`. -/
def getTargetFillPrice (p : Pos) : Option ℚ := p.takeProfit

/-- Distance of a fill level from the bar open in `_resolve_both_hit`:
`abs(bar_open - price) if price else float("inf")`; `none` stands for the
infinite distance of a missing (or falsy `0.0`) level. -/
def distToLevel (o : ℚ) : Option ℚ → Option ℚ
  | some x => if x ≠ 0 then some |o - x| else none
  | none => none

/-- `SimBroker._resolve_both_hit`: the level closer to the open fills first;
`dist_to_stop <= dist_to_target` resolves to the stop (ties go to the stop). -/
def resolveBothHit (p : Pos) (o : ℚ) : ExitReason :=
  match distToLevel o (getStopFillPrice p), distToLevel o (getTargetFillPrice p) with
  | some a, some b => if a ≤ b then .stopLoss else .takeProfit
  | some _, none => .stopLoss
  | none, some _ => .takeProfit
  | none, none => .stopLoss

/-- `SimBroker.check_stops_and_targets`: the backtest semantics the live
stop check is specified to replicate. -/
def backtestCheckStops (p : Pos) (o lo hi : ℚ) : Option ExitReason :=
  if isStopHit p lo hi then
    if isTargetHit p lo hi then some (resolveBothHit p o)
    else some .stopLoss
  else if isTargetHit p lo hi then some .takeProfit
  else none

/-- The failing input for claim C3: long position `entry=100`, `stop=98`,
`take_profit=104`; bar `(open=103, high=105, low=97)` hits both levels and
the target is closer to the open. -/
def c3Pos : Pos := ⟨.long, 100, 10, some 98, some 104, none, none⟩

/-- Claim C3 (code_bug): on a bar hitting both the stop and the target with
the target fill closer to the bar's open, the live `_check_stops` exits at
the stop unconditionally, while the repository's own backtest semantics
(`_resolve_both_hit`, which the spec describes) picks the take profit. -/
theorem both_hit_stop_first_divergence :
    isStopHit c3Pos 97 105 = true
    ∧ isTargetHit c3Pos 97 105 = true
    ∧ |(103:ℚ) - 104| < |(103:ℚ) - 98|
    ∧ checkStopsReason c3Pos 97 105 = some .stopLoss
    ∧ backtestCheckStops c3Pos 103 97 105 = some .takeProfit := by
  refine ⟨?_, ?_, by norm_num, ?_, ?_⟩ <;>
    norm_num [c3Pos, checkStopsReason, backtestCheckStops, resolveBothHit,
      distToLevel, getStopFillPrice, getTargetFillPrice, isStopHit, isTargetHit,
      getEffectiveStop]

/-! ## Reconciler (`src/bot/engine/reconciler.py`) -/

/-- The broker's view of a position, as returned by `broker.get_position`. -/
structure BrokerPos where
  side : Dir
  qty : ℚ
  avgPrice : ℚ
deriving DecidableEq

inductive ReconcileAction
  | noAction
  | mismatch
  | adoptBroker
  | clearLocal
deriving DecidableEq

/-- The `match`/`action` pair of the dict returned by `Reconciler.reconcile`
(the source also has an `"unknown"` fallback that is unreachable). -/
structure ReconcileResult where
  isMatch : Bool
  action : ReconcileAction
deriving DecidableEq

/-- `Reconciler.reconcile` (the broker query is passed in as `brokerPos`). -/
def reconcile (localPos : Option Pos) (brokerPos : Option BrokerPos) :
    ReconcileResult :=
  match localPos, brokerPos with
  | none, none => ⟨true, .noAction⟩
  | some lp, some bp =>
    if lp.direction = bp.side ∧ |lp.quantity - bp.qty| < 1/100 then ⟨true, .noAction⟩
    else ⟨false, .mismatch⟩
  | none, some _ => ⟨false, .adoptBroker⟩
  | some _, none => ⟨false, .clearLocal⟩

/-- `Reconciler.adopt_broker_position`: a local `Position` built from the
broker's `{side, qty, avg_price}`, stop/target/trailing all unset. -/
def adoptBrokerPosition (bp : BrokerPos) : Pos :=
  ⟨bp.side, bp.avgPrice, bp.qty, none, none, none, none⟩

/-- The write-side action of `MultiTimeframeEngine.reconcile` applied to the
engine's `(position, active_timeframe)` pair: adopt on `adopt_broker`, drop
on `clear_local`, and no action otherwise (`mismatch` is report-only). -/
def applyReconcile (localPos : Option Pos) (activeTf : Option String)
    (brokerPos : Option BrokerPos) : Option Pos × Option String :=
  let r := reconcile localPos brokerPos
  if r.isMatch then (localPos, activeTf)
  else
    match r.action with
    | .adoptBroker =>
      match brokerPos with
      | some bp => (some (adoptBrokerPosition bp), some "reconciled")
      | none => (localPos, activeTf)
    | .clearLocal => (none, none)
    | _ => (localPos, activeTf)

/-- Claim C9 (confirmed): `reconcile` classifies exactly as specified —
both empty → agree-flat; both non-empty with equal direction and quantity
gap `< 0.01` → agree-match; both non-empty otherwise → mismatch with no
write-side action; only broker → adopt_broker building a local position from
the broker's direction/quantity/avg_price with stop and target unset; only
local → clear_local dropping the local position. -/
theorem reconcile_classification (localPos : Option Pos) (activeTf : Option String)
    (brokerPos : Option BrokerPos) :
    (localPos = none → brokerPos = none →
      reconcile localPos brokerPos = ⟨true, .noAction⟩)
    ∧ (∀ lp bp, localPos = some lp → brokerPos = some bp →
        (lp.direction = bp.side ∧ |lp.quantity - bp.qty| < 1/100 →
          reconcile localPos brokerPos = ⟨true, .noAction⟩)
        ∧ (¬(lp.direction = bp.side ∧ |lp.quantity - bp.qty| < 1/100) →
          reconcile localPos brokerPos = ⟨false, .mismatch⟩
          ∧ applyReconcile localPos activeTf brokerPos = (localPos, activeTf)))
    ∧ (∀ bp, localPos = none → brokerPos = some bp →
        reconcile localPos brokerPos = ⟨false, .adoptBroker⟩
        ∧ applyReconcile localPos activeTf brokerPos
            = (some (adoptBrokerPosition bp), some "reconciled")
        ∧ (adoptBrokerPosition bp).direction = bp.side
        ∧ (adoptBrokerPosition bp).quantity = bp.qty
        ∧ (adoptBrokerPosition bp).entryPrice = bp.avgPrice
        ∧ (adoptBrokerPosition bp).stopLoss = none
        ∧ (adoptBrokerPosition bp).takeProfit = none)
    ∧ (∀ lp, localPos = some lp → brokerPos = none →
        reconcile localPos brokerPos = ⟨false, .clearLocal⟩
        ∧ applyReconcile localPos activeTf brokerPos = (none, none)) := by
  refine ⟨?_, ?_, ?_, ?_⟩
  · rintro rfl rfl
    rfl
  · rintro lp bp rfl rfl
    constructor
    · intro hc
      simp only [reconcile]
      rw [if_pos hc]
    · intro hc
      have h1 : reconcile (some lp) (some bp) = ⟨false, .mismatch⟩ := by
        simp only [reconcile]
        rw [if_neg hc]
      refine ⟨h1, ?_⟩
      simp only [applyReconcile, h1]
      rfl
  · rintro bp rfl rfl
    exact ⟨rfl, rfl, rfl, rfl, rfl, rfl, rfl⟩
  · rintro lp rfl rfl
    exact ⟨rfl, rfl⟩

/-- Witness for C9: the adopt-broker outcome at the spec's S5 input
(`side=long, qty=10, avg_price=200`, local flat). -/
theorem reconcile_classification_witness :
    reconcile none (some ⟨.long, 10, 200⟩) = ⟨false, .adoptBroker⟩
    ∧ applyReconcile none none (some ⟨.long, 10, 200⟩)
        = (some (adoptBrokerPosition ⟨.long, 10, 200⟩), some "reconciled")
    ∧ (adoptBrokerPosition ⟨.long, 10, 200⟩).direction = Dir.long
    ∧ (adoptBrokerPosition ⟨.long, 10, 200⟩).quantity = 10
    ∧ (adoptBrokerPosition ⟨.long, 10, 200⟩).entryPrice = 200
    ∧ (adoptBrokerPosition ⟨.long, 10, 200⟩).stopLoss = none
    ∧ (adoptBrokerPosition ⟨.long, 10, 200⟩).takeProfit = none :=
  (reconcile_classification none none (some ⟨.long, 10, 200⟩)).2.2.1
    ⟨.long, 10, 200⟩ rfl rfl

/-! ## Signals and the risk manager (`src/bot/risk/manager.py`) -/

/-- `Signal.direction` values. -/
inductive SigDir
  | long
  | short
  | closeLong
  | closeShort
  | flat
deriving DecidableEq

/-- `signal.direction in ("close_long", "close_short", "flat")`. -/
def SigDir.isCloseKind : SigDir → Bool
  | .closeLong => true
  | .closeShort => true
  | .flat => true
  | _ => false

/-- A strategy `Signal` (the `strength`/`reason` fields play no role in the
claims under study). -/
structure Signal where
  direction : SigDir
  stopLoss : Option ℚ := none
  takeProfit : Option ℚ := none
  trailingStopDistance : Option ℚ := none
deriving DecidableEq

/-- The broker account snapshot fields consumed by the risk manager and the
sizing code.  `regtBuyingPower = none` models a dict missing the
`"regt_buying_power"` key (the source falls back with `.get`). -/
structure Account where
  equity : ℚ
  buyingPower : ℚ
  regtBuyingPower : Option ℚ
  tradingBlocked : Bool
deriving DecidableEq

/-- `RiskConfig` (`src/bot/config/settings.py`). -/
structure RiskConfig where
  maxDailyLoss : ℚ
  maxDrawdownPct : ℚ
  maxPositionValuePct : ℚ
  maxTotalPositions : ℕ
  maxTotalExposurePct : ℚ
  minEquityForTrading : ℚ
  enforceBuyingPower : Bool
deriving DecidableEq

/-- The pause reasons produced by `RiskManager._pause` call sites.  The day
rollover auto-resume tests `"Daily loss" in self.pause_reason`, true exactly
for `dailyLoss`. -/
inductive PauseReason
  | dailyLoss
  | drawdown
  | pdtEquity
  | brokerBlocked
deriving DecidableEq

/-- `RiskManager` mutable state.  `openPositions` is the insertion-ordered
`dict` `ticker -> estimated position value`; `currentDate` is a day index. -/
structure RiskState where
  peakEquity : ℚ
  dailyPnl : ℚ
  dailyTrades : ℕ
  dailyWins : ℕ
  dailyLosses : ℕ
  currentDate : ℕ
  isPaused : Bool
  pauseReason : Option PauseReason
  openPositions : List (String × ℚ)
deriving DecidableEq

/-- Dict lookup on the open-positions association list. -/
def posLookup : List (String × ℚ) → String → Option ℚ
  | [], _ => none
  | (k, v) :: rest, t => if k = t then some v else posLookup rest t

/-- Dict assignment: replace in place if the key exists, else append
(Python dict insertion order). -/
def posInsert : List (String × ℚ) → String → ℚ → List (String × ℚ)
  | [], t, v => [(t, v)]
  | (k, w) :: rest, t, v =>
    if k = t then (t, v) :: rest else (k, w) :: posInsert rest t v

/-- `dict.pop(ticker, None)` on a dict (keys unique). -/
def posErase : List (String × ℚ) → String → List (String × ℚ)
  | [], _ => []
  | (k, w) :: rest, t => if k = t then rest else (k, w) :: posErase rest t

/-- `sum(self._open_positions.values())`. -/
def exposure (l : List (String × ℚ)) : ℚ := (l.map Prod.snd).sum

/-- `RiskManager._pause`: only sets the reason if not already paused. -/
def pauseRisk (st : RiskState) (r : PauseReason) : RiskState :=
  if st.isPaused then st else { st with isPaused := true, pauseReason := some r }

/-- `RiskManager._check_day_rollover`: reset daily counters on a new day and
auto-resume only a daily-loss pause. -/
def checkDayRollover (st : RiskState) (today : ℕ) : RiskState :=
  if today ≠ st.currentDate then
    -- counters reset first; then auto-resume only a daily-loss pause
    -- (the reset does not touch the pause fields, so the resume test reads
    -- the same values as the source's post-reset state)
    if st.isPaused ∧ st.pauseReason = some .dailyLoss then
      { st with dailyPnl := 0, dailyTrades := 0, dailyWins := 0,
                dailyLosses := 0, currentDate := today,
                isPaused := false, pauseReason := none }
    else
      { st with dailyPnl := 0, dailyTrades := 0, dailyWins := 0,
                dailyLosses := 0, currentDate := today }
  else st

/-- The rejection/acceptance reasons of `check_new_order`, one per return
site, in source order. -/
inductive RiskReason
  | exitAllowed
  | paused
  | brokerBlocked
  | belowMinEquity
  | dailyLossLimit
  | drawdownBreaker
  | alreadyInPosition
  | maxPositions
  | maxExposure
  | singleShareTooBig
  | insufficientBuyingPower
  | outsideMarketHours
  | approved
deriving DecidableEq

/-- Checks 5–11 of `RiskManager.check_new_order` (drawdown breaker onward),
taking the already peak-updated state `st1`. -/
def checkNewOrderLate (cfg : RiskConfig) (st1 : RiskState) (ticker : String)
    (price equity buyingPower : ℚ) (account : Option Account)
    (marketOpen : Bool) : (Bool × RiskReason) × RiskState :=
  if (st1.peakEquity - equity) / st1.peakEquity * 100 ≥ cfg.maxDrawdownPct then
    ((false, .drawdownBreaker), pauseRisk st1 .drawdown)
  else if (posLookup st1.openPositions ticker).isSome then
    ((false, .alreadyInPosition), st1)
  else if st1.openPositions.length ≥ cfg.maxTotalPositions then
    ((false, .maxPositions), st1)
  else if equity * cfg.maxTotalExposurePct - exposure st1.openPositions ≤ 0 then
    ((false, .maxExposure), st1)
  else if price > equity * cfg.maxPositionValuePct then
    ((false, .singleShareTooBig), st1)
  else if cfg.enforceBuyingPower ∧ account.isSome ∧
      (match account with
       | some a => a.regtBuyingPower.getD buyingPower
       | none => buyingPower) - exposure st1.openPositions ≤ 0 then
    ((false, .insufficientBuyingPower), st1)
  else if ¬ marketOpen then ((false, .outsideMarketHours), st1)
  else ((true, .approved), st1)

/-- `RiskManager.check_new_order`.  `today` stands for `date.today()` and
`marketOpen` for `self._session_filter.is_market_hours()`.  Returns the
`(allowed, reason)` pair and the updated risk state. -/
def checkNewOrder (cfg : RiskConfig) (st0 : RiskState) (sig : Signal)
    (ticker : String) (price equity buyingPower : ℚ) (account : Option Account)
    (today : ℕ) (marketOpen : Bool) : (Bool × RiskReason) × RiskState :=
  let st := checkDayRollover st0 today
  if sig.direction.isCloseKind then ((true, .exitAllowed), st)
  else if st.isPaused then ((false, .paused), st)
  else if (match account with | some a => a.tradingBlocked | none => false) then
    ((false, .brokerBlocked), pauseRisk st .brokerBlocked)
  else if cfg.minEquityForTrading > 0 ∧ equity < cfg.minEquityForTrading then
    ((false, .belowMinEquity), pauseRisk st .pdtEquity)
  else if |st.dailyPnl| > 0 ∧ st.dailyPnl ≤ -cfg.maxDailyLoss then
    ((false, .dailyLossLimit), pauseRisk st .dailyLoss)
  else
    checkNewOrderLate cfg
      (if equity > st.peakEquity then { st with peakEquity := equity } else st)
      ticker price equity buyingPower account marketOpen

/-- `RiskManager.record_trade_opened`. -/
def recordTradeOpened (st : RiskState) (ticker : String) (value : ℚ) : RiskState :=
  { st with openPositions := posInsert st.openPositions ticker value,
            dailyTrades := st.dailyTrades + 1 }

/-- `RiskManager.record_trade_closed`. -/
def recordTradeClosed (cfg : RiskConfig) (st0 : RiskState) (ticker : String)
    (pnl : ℚ) (today : ℕ) : RiskState :=
  let st := checkDayRollover st0 today
  let st1 := { st with openPositions := posErase st.openPositions ticker,
                       dailyPnl := st.dailyPnl + pnl }
  let st2 :=
    if pnl ≥ 0 then { st1 with dailyWins := st1.dailyWins + 1 }
    else { st1 with dailyLosses := st1.dailyLosses + 1 }
  if st2.dailyPnl ≤ -cfg.maxDailyLoss then pauseRisk st2 .dailyLoss else st2

/-- `RiskManager.get_remaining_capacity` over the open-positions dict. -/
def getRemainingCapacity (cfg : RiskConfig) (openPos : List (String × ℚ))
    (equity : ℚ) : ℚ :=
  max 0 (equity * cfg.maxTotalExposurePct - exposure openPos)

lemma checkDayRollover_openPositions (st : RiskState) (today : ℕ) :
    (checkDayRollover st today).openPositions = st.openPositions := by
  unfold checkDayRollover
  split_ifs <;> rfl

/-- Counterexample inputs for claim C7: `max_daily_loss = 0` and
`daily_pnl = 0` satisfy `daily_pnl ≤ -max_daily_loss`, yet the
`abs(daily_pnl) > 0` guard skips the daily-loss check entirely. -/
def c7Cfg : RiskConfig :=
  { maxDailyLoss := 0, maxDrawdownPct := 15, maxPositionValuePct := 9/10,
    maxTotalPositions := 1, maxTotalExposurePct := 1,
    minEquityForTrading := 25000, enforceBuyingPower := true }

def c7St : RiskState :=
  { peakEquity := 30000, dailyPnl := 0, dailyTrades := 0, dailyWins := 0,
    dailyLosses := 0, currentDate := 0, isPaused := false, pauseReason := none,
    openPositions := [] }

/-- Counterexample to C7 as stated: with `max_daily_loss = 0` and
`daily_pnl = 0` the inequality `daily_pnl ≤ -max_daily_loss` holds, yet
`check_new_order` neither pauses nor rejects — it approves the order. -/
theorem daily_loss_zero_counterexample :
    c7St.dailyPnl ≤ -c7Cfg.maxDailyLoss
    ∧ (checkNewOrder c7Cfg c7St ⟨.long, none, none, none⟩ "X" 10 30000 60000
        none 0 true).1 = (true, .approved)
    ∧ (checkNewOrder c7Cfg c7St ⟨.long, none, none, none⟩ "X" 10 30000 60000
        none 0 true).2.isPaused = false := by
  refine ⟨by norm_num [c7St, c7Cfg], ?_, ?_⟩ <;>
    norm_num [checkNewOrder, checkNewOrderLate, checkDayRollover, c7St, c7Cfg,
      SigDir.isCloseKind, posLookup, exposure]

/-- Claim C7 (corrected, amended): for every non-paused risk state and
non-close entry signal passing the earlier checks, if `daily_pnl` is
NON-ZERO and `daily_pnl ≤ -max_daily_loss` then `check_new_order` pauses
trading (reason: daily loss) and rejects the order; the source guards the
comparison with `abs(daily_pnl) > 0`, so `daily_pnl = 0` with
`max_daily_loss = 0` is admitted. -/
theorem daily_loss_pauses_and_rejects (cfg : RiskConfig) (st : RiskState)
    (sig : Signal) (ticker : String) (price equity buyingPower : ℚ)
    (account : Option Account) (today : ℕ) (marketOpen : Bool)
    (hroll : today = st.currentDate)
    (hsig : sig.direction.isCloseKind = false)
    (hpause : st.isPaused = false)
    (hblock : (match account with | some a => a.tradingBlocked | none => false) = false)
    (hequity : ¬(cfg.minEquityForTrading > 0 ∧ equity < cfg.minEquityForTrading))
    (hnz : st.dailyPnl ≠ 0)
    (hloss : st.dailyPnl ≤ -cfg.maxDailyLoss) :
    (checkNewOrder cfg st sig ticker price equity buyingPower account
        today marketOpen).1 = (false, .dailyLossLimit)
    ∧ (checkNewOrder cfg st sig ticker price equity buyingPower account
        today marketOpen).2.isPaused = true
    ∧ (checkNewOrder cfg st sig ticker price equity buyingPower account
        today marketOpen).2.pauseReason = some .dailyLoss := by
  have hnoroll : checkDayRollover st today = st := by
    unfold checkDayRollover
    rw [if_neg (by omega)]
  have habs : |st.dailyPnl| > 0 ∧ st.dailyPnl ≤ -cfg.maxDailyLoss :=
    ⟨abs_pos.mpr hnz, hloss⟩
  unfold checkNewOrder
  rw [hnoroll, hsig]
  simp only [Bool.false_eq_true, if_false, hpause, hblock, if_neg hequity,
    if_pos habs, pauseRisk, hpause]
  simp

/-- Concrete inputs for the amended-C7 witness: `daily_pnl = -1200` against
`max_daily_loss = 1000`. -/
def c7wCfg : RiskConfig :=
  { maxDailyLoss := 1000, maxDrawdownPct := 15, maxPositionValuePct := 9/10,
    maxTotalPositions := 1, maxTotalExposurePct := 1,
    minEquityForTrading := 25000, enforceBuyingPower := true }

def c7wSt : RiskState :=
  { peakEquity := 30000, dailyPnl := -1200, dailyTrades := 2, dailyWins := 0,
    dailyLosses := 2, currentDate := 0, isPaused := false, pauseReason := none,
    openPositions := [] }

/-- Witness for the amended C7. -/
theorem daily_loss_pauses_and_rejects_witness :
    (SigDir.isCloseKind .long = false ∧ c7wSt.dailyPnl ≠ 0
      ∧ c7wSt.dailyPnl ≤ -c7wCfg.maxDailyLoss)
    ∧ (checkNewOrder c7wCfg c7wSt ⟨.long, none, none, none⟩ "X" 10 30000 60000
        none 0 true).1 = (false, .dailyLossLimit) :=
  ⟨⟨rfl, by norm_num [c7wSt], by norm_num [c7wSt, c7wCfg]⟩,
    (daily_loss_pauses_and_rejects c7wCfg c7wSt ⟨.long, none, none, none⟩ "X"
      10 30000 60000 none 0 true rfl rfl rfl rfl
      (by norm_num [c7wCfg]) (by norm_num [c7wSt]) (by norm_num [c7wSt, c7wCfg])).1⟩

/-! ## Position sizing and the Open Path
(`MultiTimeframeEngine._calculate_quantity` / `_open_position`) -/

inductive SizingMethod
  | fixed
  | percent
  | riskBased
deriving DecidableEq

structure SizingParams where
  method : SizingMethod
  pctEquity : ℚ
  fixedSize : ℚ
  riskPct : ℚ
deriving DecidableEq

/-- Python `int()` truncation toward zero on a rational. -/
def pyInt (q : ℚ) : ℤ := if 0 ≤ q then ⌊q⌋ else -⌊-q⌋

/-- The desired dollar value computed by `_calculate_quantity`: the sizing
mode's base amount, capped by the risk manager's remaining exposure capacity
and by available Reg-T buying power.  `openPos` is the risk manager's
open-positions dict (the source reads `self.risk_manager._open_positions`
directly for the buying-power cap). -/
def desiredValue (cfg : RiskConfig) (sz : SizingParams)
    (openPos : List (String × ℚ)) (sig : Signal) (price : ℚ)
    (account : Account) : ℚ :=
  let equity := account.equity
  let base :=
    match sz.method with
    | .fixed => sz.fixedSize
    | .percent => equity * sz.pctEquity
    | .riskBased =>
      match sig.stopLoss with
      | some sl =>
        -- `if signal.stop_loss:` is Python truthiness: a 0.0 stop falls through
        if sl ≠ 0 then
          if |price - sl| > 0 then equity * sz.riskPct / |price - sl| * price
          else equity * sz.riskPct
        else equity * sz.riskPct
      | none => equity * sz.riskPct
  let remaining := getRemainingCapacity cfg openPos equity
  let capped := if base > remaining then remaining else base
  let availableBp := account.regtBuyingPower.getD (equity * 2) - exposure openPos
  if capped > availableBp ∧ availableBp > 0 then availableBp else capped

/-- `_calculate_quantity`: `max(1, int(desired_value / price))`. -/
def calcQuantity (cfg : RiskConfig) (sz : SizingParams)
    (openPos : List (String × ℚ)) (sig : Signal) (price : ℚ)
    (account : Account) : ℤ :=
  max 1 (pyInt (desiredValue cfg sz openPos sig price account / price))

/-- The Open Path of `_open_position` as it touches the risk manager:
`check_new_order`; on approval compute the quantity and, after the broker
fills the market order at `fillPrice`, `record_trade_opened(ticker,
quantity * entry_price)`.  Returns `none` when the risk check rejects. -/
def openPath (cfg : RiskConfig) (sz : SizingParams) (st : RiskState)
    (sig : Signal) (ticker : String) (price : ℚ) (account : Account)
    (today : ℕ) (marketOpen : Bool) (fillPrice : ℚ) : Option RiskState :=
  let r := checkNewOrder cfg st sig ticker price account.equity
    account.buyingPower (some account) today marketOpen
  if r.1.1 then
    some (recordTradeOpened r.2 ticker
      (((calcQuantity cfg sz r.2.openPositions sig price account : ℤ) : ℚ) * fillPrice))
  else none

lemma pauseRisk_openPositions (st : RiskState) (r : PauseReason) :
    (pauseRisk st r).openPositions = st.openPositions := by
  unfold pauseRisk
  split <;> rfl

lemma peakUpdate_openPositions (st : RiskState) (e : ℚ) :
    (if e > st.peakEquity then { st with peakEquity := e } else st).openPositions
      = st.openPositions := by
  split <;> rfl

lemma checkNewOrderLate_openPositions (cfg : RiskConfig) (st1 : RiskState)
    (ticker : String) (price equity buyingPower : ℚ) (account : Option Account)
    (marketOpen : Bool) :
    (checkNewOrderLate cfg st1 ticker price equity buyingPower account
      marketOpen).2.openPositions = st1.openPositions := by
  simp only [checkNewOrderLate]
  split_ifs <;> simp only [pauseRisk_openPositions]

lemma checkNewOrder_openPositions (cfg : RiskConfig) (st : RiskState)
    (sig : Signal) (ticker : String) (price equity buyingPower : ℚ)
    (account : Option Account) (today : ℕ) (marketOpen : Bool) :
    (checkNewOrder cfg st sig ticker price equity buyingPower account
      today marketOpen).2.openPositions = st.openPositions := by
  simp only [checkNewOrder]
  split_ifs <;>
    simp only [checkNewOrderLate_openPositions, pauseRisk_openPositions,
      peakUpdate_openPositions, checkDayRollover_openPositions]

lemma checkNewOrderLate_allowed_lookup (cfg : RiskConfig) (st1 : RiskState)
    (ticker : String) (price equity buyingPower : ℚ) (account : Option Account)
    (marketOpen : Bool)
    (hallow : (checkNewOrderLate cfg st1 ticker price equity buyingPower account
      marketOpen).1.1 = true) :
    posLookup st1.openPositions ticker = none := by
  simp only [checkNewOrderLate] at hallow
  split_ifs at hallow with h1 h2 h3 h4 h5 h6 h7
  all_goals try exact Bool.noConfusion hallow
  exact Option.not_isSome_iff_eq_none.mp h2

lemma checkNewOrder_allowed_lookup (cfg : RiskConfig) (st : RiskState)
    (sig : Signal) (ticker : String) (price equity buyingPower : ℚ)
    (account : Option Account) (today : ℕ) (marketOpen : Bool)
    (hsig : sig.direction.isCloseKind = false)
    (hallow : (checkNewOrder cfg st sig ticker price equity buyingPower account
      today marketOpen).1.1 = true) :
    posLookup st.openPositions ticker = none := by
  simp only [checkNewOrder, hsig, Bool.false_eq_true, if_false] at hallow
  split_ifs at hallow with h1 h2 h3 h4 <;>
    try exact Bool.noConfusion hallow
  all_goals
    have hlk := checkNewOrderLate_allowed_lookup _ _ _ _ _ _ _ _ hallow
  all_goals
    simp only [checkDayRollover_openPositions] at hlk
  all_goals exact hlk

lemma exposure_posInsert (l : List (String × ℚ)) (t : String) (v : ℚ)
    (h : posLookup l t = none) :
    exposure (posInsert l t v) = exposure l + v := by
  induction l with
  | nil => simp [posInsert, exposure]
  | cons kv rest ih =>
    obtain ⟨k, w⟩ := kv
    by_cases hk : k = t
    · simp [posLookup, hk] at h
    · have h2 : posLookup rest t = none := by simpa [posLookup, hk] using h
      simp only [posInsert, if_neg hk, exposure, List.map_cons, List.sum_cons]
      have := ih h2
      simp only [exposure] at this
      rw [this]
      ring

lemma desiredValue_le_capacity (cfg : RiskConfig) (sz : SizingParams)
    (openPos : List (String × ℚ)) (sig : Signal) (price : ℚ)
    (account : Account) :
    desiredValue cfg sz openPos sig price account
      ≤ getRemainingCapacity cfg openPos account.equity := by
  simp only [desiredValue]
  split_ifs with h1 h2 h3
  · exact le_of_lt (lt_of_lt_of_le h2.1 (le_refl _))
  · exact le_refl _
  · exact le_of_lt (lt_of_lt_of_le h3.1 (le_of_not_lt h1))
  · exact le_of_not_lt h1

/-- Counterexample inputs for claim C2: remaining exposure capacity of $10
with a $100 share price; the `max(1, ...)` floor forces a 1-share order. -/
def c2Cfg : RiskConfig :=
  { maxDailyLoss := 3000, maxDrawdownPct := 15, maxPositionValuePct := 9/10,
    maxTotalPositions := 5, maxTotalExposurePct := 1,
    minEquityForTrading := 0, enforceBuyingPower := true }

def c2St : RiskState :=
  { peakEquity := 1000, dailyPnl := 0, dailyTrades := 0, dailyWins := 0,
    dailyLosses := 0, currentDate := 0, isPaused := false, pauseReason := none,
    openPositions := [("OTHER", 990)] }

def c2Sz : SizingParams :=
  { method := .percent, pctEquity := 9/10, fixedSize := 10000, riskPct := 1/50 }

def c2Acct : Account :=
  { equity := 1000, buyingPower := 2000, regtBuyingPower := some 2000,
    tradingBlocked := false }

def c2Sig : Signal := ⟨.long, some 95, some 110, none⟩

def c2StAfter : RiskState :=
  { peakEquity := 1000, dailyPnl := 0, dailyTrades := 1, dailyWins := 0,
    dailyLosses := 0, currentDate := 0, isPaused := false, pauseReason := none,
    openPositions := [("OTHER", 990), ("MSTR", 100)] }

/-- Counterexample to C2 as stated: the Open Path completes successfully
(risk check approves, quantity `max(1, floor(10/100)) = 1`, fill at the
signal price 100, `record_trade_opened` called), yet the resulting total
exposure 1090 exceeds `equity * max_total_exposure_pct = 1000`. -/
theorem exposure_cap_counterexample :
    openPath c2Cfg c2Sz c2St c2Sig "MSTR" 100 c2Acct 0 true 100 = some c2StAfter
    ∧ exposure c2StAfter.openPositions = 1090
    ∧ c2Acct.equity * c2Cfg.maxTotalExposurePct < 1090 := by
  have hcheck : checkNewOrder c2Cfg c2St c2Sig "MSTR" 100 c2Acct.equity
      c2Acct.buyingPower (some c2Acct) 0 true = ((true, .approved), c2St) := by
    norm_num [checkNewOrder, checkNewOrderLate, checkDayRollover, posLookup,
      exposure, c2St, c2Cfg, c2Acct, c2Sig, SigDir.isCloseKind, pauseRisk]
    all_goals decide
  have hdes : desiredValue c2Cfg c2Sz c2St.openPositions c2Sig 100 c2Acct = 10 := by
    norm_num [desiredValue, getRemainingCapacity, exposure, c2St, c2Cfg, c2Acct,
      c2Sz, max_def]
  have hq : calcQuantity c2Cfg c2Sz c2St.openPositions c2Sig 100 c2Acct = 1 := by
    rw [calcQuantity, hdes]
    norm_num [pyInt, max_def]
  have hins : posInsert [("OTHER", (990:ℚ))] "MSTR" 100
      = [("OTHER", 990), ("MSTR", 100)] := by
    simp only [posInsert]
    rw [if_neg (by decide)]
  have hrec : recordTradeOpened c2St "MSTR" 100 = c2StAfter := by
    simp only [recordTradeOpened]
    rw [show c2St.openPositions = [("OTHER", (990:ℚ))] from rfl, hins]
    rfl
  refine ⟨?_, by norm_num [exposure, c2StAfter], by norm_num [c2Acct, c2Cfg]⟩
  simp only [openPath, hcheck]
  rw [if_pos trivial, hq]
  have hv : ((1:ℤ) : ℚ) * 100 = 100 := by norm_num
  rw [hv, hrec]

/-- Claim C2 (corrected, amended): immediately after a successful Open Path
completion with the broker filling at the signal price, the risk manager's
total exposure stays within `equity * max_total_exposure_pct` PROVIDED the
capped desired value covers at least one share (`price ≤ desired_value`,
i.e. the `max(1, ...)` floor is not binding); when the remaining capacity is
below one share's price, the forced 1-share minimum can push total exposure
past the cap (see the counterexample). -/
theorem open_path_exposure_cap (cfg : RiskConfig) (sz : SizingParams)
    (st : RiskState) (sig : Signal) (ticker : String) (price : ℚ)
    (account : Account) (today : ℕ) (marketOpen : Bool) (stA : RiskState)
    (hsig : sig.direction.isCloseKind = false)
    (hprice : 0 < price)
    (hqty : price ≤ desiredValue cfg sz st.openPositions sig price account)
    (hrun : openPath cfg sz st sig ticker price account today marketOpen price
      = some stA) :
    exposure stA.openPositions ≤ account.equity * cfg.maxTotalExposurePct := by
  simp only [openPath] at hrun
  split_ifs at hrun with hallow
  · -- abbreviations for the post-check state and the desired value
    set r := checkNewOrder cfg st sig ticker price account.equity
      account.buyingPower (some account) today marketOpen with hr
    have hpos : r.2.openPositions = st.openPositions :=
      checkNewOrder_openPositions cfg st sig ticker price account.equity
        account.buyingPower (some account) today marketOpen
    have hlook : posLookup st.openPositions ticker = none :=
      checkNewOrder_allowed_lookup cfg st sig ticker price account.equity
        account.buyingPower (some account) today marketOpen hsig hallow
    set D := desiredValue cfg sz st.openPositions sig price account with hD
    have hcap : D ≤ getRemainingCapacity cfg st.openPositions account.equity :=
      desiredValue_le_capacity cfg sz st.openPositions sig price account
    -- remaining capacity is positive, hence equals cap - exposure
    have hDpos : 0 < D := lt_of_lt_of_le hprice hqty
    have hrem : getRemainingCapacity cfg st.openPositions account.equity
        = account.equity * cfg.maxTotalExposurePct - exposure st.openPositions := by
      have h0 : 0 < getRemainingCapacity cfg st.openPositions account.equity :=
        lt_of_lt_of_le hDpos hcap
      rw [getRemainingCapacity] at h0 ⊢
      rcases max_cases (0:ℚ)
        (account.equity * cfg.maxTotalExposurePct - exposure st.openPositions) with
        ⟨hm, _⟩ | ⟨hm, _⟩
      · rw [hm] at h0
        exact absurd h0 (lt_irrefl 0)
      · exact hm
    -- the quantity: the floor is not binding and qty * price ≤ D
    have hone : (1:ℚ) ≤ D / price := (one_le_div hprice).mpr hqty
    have hfl1 : 1 ≤ ⌊D / price⌋ := Int.le_floor.mpr (by exact_mod_cast hone)
    have hqcalc : calcQuantity cfg sz st.openPositions sig price account
        = ⌊D / price⌋ := by
      rw [calcQuantity, ← hD, pyInt, if_pos (le_trans zero_le_one hone)]
      exact max_eq_right hfl1
    have hqp : ((⌊D / price⌋ : ℤ) : ℚ) * price ≤ D := by
      have h1 : ((⌊D / price⌋ : ℤ) : ℚ) ≤ D / price := Int.floor_le _
      calc ((⌊D / price⌋ : ℤ) : ℚ) * price ≤ D / price * price :=
            mul_le_mul_of_nonneg_right h1 (le_of_lt hprice)
        _ = D := div_mul_cancel₀ D (ne_of_gt hprice)
    -- assemble
    have hstA : stA = recordTradeOpened r.2 ticker
        (((calcQuantity cfg sz r.2.openPositions sig price account : ℤ) : ℚ) * price) :=
      (Option.some.inj hrun).symm
    rw [hstA]
    simp only [recordTradeOpened, hpos]
    rw [exposure_posInsert st.openPositions ticker _ hlook, hqcalc]
    have hle := add_le_add_left hqp (exposure st.openPositions)
    refine le_trans hle ?_
    rw [hrem] at hcap
    linarith

/-- Witness for the amended C2: same configuration as the counterexample but
with $500 of remaining capacity, so five shares fit under the cap. -/
def c2wSt : RiskState :=
  { peakEquity := 1000, dailyPnl := 0, dailyTrades := 0, dailyWins := 0,
    dailyLosses := 0, currentDate := 0, isPaused := false, pauseReason := none,
    openPositions := [("OTHER", 500)] }

theorem open_path_exposure_cap_witness :
    (SigDir.isCloseKind .long = false ∧ (0:ℚ) < 100
      ∧ (100:ℚ) ≤ desiredValue c2Cfg c2Sz c2wSt.openPositions c2Sig 100 c2Acct)
    ∧ exposure
        (recordTradeOpened c2wSt "MSTR"
          (((calcQuantity c2Cfg c2Sz c2wSt.openPositions c2Sig 100 c2Acct : ℤ) : ℚ)
            * 100)).openPositions
      ≤ c2Acct.equity * c2Cfg.maxTotalExposurePct := by
  have hdes : desiredValue c2Cfg c2Sz c2wSt.openPositions c2Sig 100 c2Acct = 500 := by
    norm_num [desiredValue, getRemainingCapacity, exposure, c2wSt, c2Cfg, c2Acct,
      c2Sz, max_def]
  have hcheck : checkNewOrder c2Cfg c2wSt c2Sig "MSTR" 100 c2Acct.equity
      c2Acct.buyingPower (some c2Acct) 0 true = ((true, .approved), c2wSt) := by
    norm_num [checkNewOrder, checkNewOrderLate, checkDayRollover, posLookup,
      exposure, c2wSt, c2Cfg, c2Acct, c2Sig, SigDir.isCloseKind, pauseRisk]
    all_goals decide
  have hrun : openPath c2Cfg c2Sz c2wSt c2Sig "MSTR" 100 c2Acct 0 true 100
      = some (recordTradeOpened c2wSt "MSTR"
          (((calcQuantity c2Cfg c2Sz c2wSt.openPositions c2Sig 100 c2Acct : ℤ) : ℚ)
            * 100)) := by
    simp only [openPath, hcheck]
    simp
  exact ⟨⟨rfl, by norm_num, by rw [hdes]; norm_num⟩,
    open_path_exposure_cap c2Cfg c2Sz c2wSt c2Sig "MSTR" 100 c2Acct 0 true _
      rfl (by norm_num) (by rw [hdes]; norm_num) hrun⟩

/-! ## Multi-timeframe engine: the Close Path and `on_bar` dispatch -/

/-- The outcome of one `broker.close_position` call: an exception, `None`
(the brokerage reports no position), or a closing trade whose
`entry_price` is the exit fill price. -/
inductive CloseOutcome
  | err
  | flatNone
  | filledAt (exitPrice : ℚ)
deriving DecidableEq

/-- The engine state touched by the close path of
`MultiTimeframeEngine`.  Slots, the database and the daily report are
external to these claims. -/
structure EngineState where
  ticker : String
  active : Bool
  longOnly : Bool
  position : Option Pos
  activeTf : Option String
  risk : RiskState
deriving DecidableEq

/-- `MultiTimeframeEngine._close_position`: one `broker.close_position`
attempt.  On an exception everything is kept; on `None` the local position
and active timeframe are cleared WITHOUT calling `record_trade_closed`; on a
fill the realized P&L is computed, `record_trade_closed` is called, the
engine pauses itself if the risk manager is now paused, and the position is
cleared.  The second component counts broker close attempts. -/
def closePosition (cfg : RiskConfig) (today : ℕ) (st : EngineState)
    (outcome : CloseOutcome) : EngineState × ℕ :=
  match st.position with
  | none => (st, 0)
  | some pos =>
    match outcome with
    | .err => (st, 1)
    | .flatNone => ({ st with position := none, activeTf := none }, 1)
    | .filledAt exitPrice =>
      let pnl :=
        match pos.direction with
        | .long => (exitPrice - pos.entryPrice) * pos.quantity
        | .short => (pos.entryPrice - exitPrice) * pos.quantity
      let risk2 := recordTradeClosed cfg st.risk st.ticker pnl today
      ({ st with position := none, activeTf := none, risk := risk2,
                 active := if risk2.isPaused then false else st.active }, 1)

/-- `MultiTimeframeEngine._check_stops`: on a stop or target hit, close
through `_close_position` (stop checked first). -/
def checkStopsFlow (cfg : RiskConfig) (today : ℕ) (st : EngineState)
    (lo hi : ℚ) (outcome : CloseOutcome) : EngineState × ℕ :=
  match st.position with
  | none => (st, 0)
  | some pos =>
    if isStopHit pos lo hi then closePosition cfg today st outcome
    else if isTargetHit pos lo hi then closePosition cfg today st outcome
    else (st, 0)

/-- The close-relevant control flow of `MultiTimeframeEngine.on_bar`.  The
strategy's returned signal is the oracle `sig` (frame append and indicator
refresh have no effect on this state); the buffered-entry arbitration path
never calls `broker.close_position` (it submits opening orders only and is
modeled separately by `evaluateEntries`/`openPath`), so it contributes no
close attempt here.  `stopOutcome`/`sigOutcome` are the broker's responses
to the up to two close attempts; the second component counts
`broker.close_position` calls during this bar. -/
def onBarCloseFlow (cfg : RiskConfig) (today : ℕ) (st : EngineState)
    (tickerIn tf : String) (lo hi closePrice : ℚ) (hasSlot : Bool)
    (sig : Option Signal) (stopOutcome sigOutcome : CloseOutcome) :
    EngineState × ℕ :=
  if st.active = false ∨ tickerIn ≠ st.ticker then (st, 0)
  else if hasSlot = false then (st, 0)
  else
    let r1 :=
      if st.position.isSome ∧ st.activeTf = some tf then
        checkStopsFlow cfg today st lo hi stopOutcome
      else (st, 0)
    let st1 := r1.1
    let st2 :=
      if st1.position.isSome ∧ st1.activeTf = some tf then
        { st1 with
          position := st1.position.map (fun p => updateTrailingStop p closePrice) }
      else st1
    match sig with
    | none => (st2, r1.2)
    | some s =>
      if st2.longOnly = true ∧ (s.direction = .short ∨ s.direction = .closeShort) then
        (st2, r1.2)
      else if s.direction.isCloseKind then
        match st2.position with
        | some _ =>
          let r2 := closePosition cfg today st2 sigOutcome
          (r2.1, r1.2 + r2.2)
        | none => (st2, r1.2)
      else (st2, r1.2)

lemma closePosition_attempts (cfg : RiskConfig) (today : ℕ) (st : EngineState)
    (pos : Pos) (outcome : CloseOutcome) (hpos : st.position = some pos) :
    (closePosition cfg today st outcome).2 = 1 := by
  rw [closePosition, hpos]
  cases outcome <;> rfl

/-- Claim C1 (corrected, amended): when the engine's `active` flag is true, a
close-kind Signal delivered while a position exists (and not already closed
by this bar's stop/target check, and not filtered by `long_only`) results in
exactly one close attempt against the broker — regardless of the risk
manager's paused state, which the close path never consults for admission;
when `active` is false the engine drops the whole bar and makes NO close
attempt. -/
theorem close_signal_one_attempt (cfg : RiskConfig) (today : ℕ)
    (st : EngineState) (tf : String) (lo hi closePrice : ℚ) (s : Signal)
    (pos : Pos) (stopOutcome sigOutcome : CloseOutcome)
    (hactive : st.active = true)
    (hpos : st.position = some pos)
    (hclose : s.direction.isCloseKind = true)
    (hlo : ¬(st.longOnly = true ∧ s.direction = .closeShort))
    (hnohit : ¬(st.activeTf = some tf ∧
      (isStopHit pos lo hi = true ∨ isTargetHit pos lo hi = true))) :
    (onBarCloseFlow cfg today st st.ticker tf lo hi closePrice true (some s)
      stopOutcome sigOutcome).2 = 1 := by
  have hgate : ¬(st.active = false ∨ st.ticker ≠ st.ticker) := by
    rw [hactive]
    simp
  have hstop : st.activeTf = some tf → isStopHit pos lo hi = false := by
    intro htf
    by_contra hb
    rw [Bool.not_eq_false] at hb
    exact hnohit ⟨htf, Or.inl hb⟩
  have htgt : st.activeTf = some tf → isTargetHit pos lo hi = false := by
    intro htf
    by_contra hb
    rw [Bool.not_eq_false] at hb
    exact hnohit ⟨htf, Or.inr hb⟩
  have hr1 : (if st.position.isSome ∧ st.activeTf = some tf then
      checkStopsFlow cfg today st lo hi stopOutcome
    else (st, 0)) = (st, 0) := by
    by_cases htf : st.activeTf = some tf
    · rw [if_pos ⟨by rw [hpos]; rfl, htf⟩]
      simp only [checkStopsFlow, hpos, hstop htf, htgt htf, Bool.false_eq_true,
        if_false]
    · exact if_neg (fun hc => htf hc.2)
  have hguard : ¬(st.longOnly = true
      ∧ (s.direction = .short ∨ s.direction = .closeShort)) := by
    rintro ⟨hlong, hd | hd⟩
    · rw [hd] at hclose
      exact Bool.noConfusion hclose
    · exact hlo ⟨hlong, hd⟩
  unfold onBarCloseFlow
  rw [if_neg hgate, if_neg (by simp : ¬((true:Bool) = false))]
  simp only [hr1]
  by_cases htf2 : st.activeTf = some tf
  · have hatt := closePosition_attempts cfg today
      { st with position := some (updateTrailingStop pos closePrice) }
      (updateTrailingStop pos closePrice) sigOutcome rfl
    simp [hpos, htf2, if_neg hguard, hclose]
    rw [htf2] at hatt
    exact hatt
  · have hatt := closePosition_attempts cfg today st pos sigOutcome hpos
    simp [hpos, htf2, if_neg hguard, hclose, hatt]

/-- The risk state and position for the C1 scenarios. -/
def c1Cfg : RiskConfig :=
  { maxDailyLoss := 3000, maxDrawdownPct := 15, maxPositionValuePct := 9/10,
    maxTotalPositions := 3, maxTotalExposurePct := 1,
    minEquityForTrading := 25000, enforceBuyingPower := true }

def c1Pos : Pos := ⟨.long, 100, 5, some 95, some 110, none, none⟩

def c1Risk : RiskState :=
  { peakEquity := 60000, dailyPnl := -4000, dailyTrades := 3, dailyWins := 0,
    dailyLosses := 3, currentDate := 0, isPaused := true,
    pauseReason := some .dailyLoss, openPositions := [("T", 500)] }

def c1St : EngineState :=
  { ticker := "T", active := false, longOnly := false, position := some c1Pos,
    activeTf := some "2m", risk := c1Risk }

/-- Counterexample to C1 as stated: the risk manager has paused trading and
the engine's `active` flag is false; a close-kind Signal arrives with a
position held, yet ZERO close attempts are made — `on_bar` drops the bar at
the `if not self.active` gate. -/
theorem close_signal_dropped_counterexample :
    c1St.position.isSome = true
    ∧ c1St.risk.isPaused = true
    ∧ c1St.active = false
    ∧ (onBarCloseFlow c1Cfg 0 c1St "T" "2m" 99 101 100 true
        (some ⟨.closeLong, none, none, none⟩) .flatNone .flatNone).2 = 0 := by
  refine ⟨rfl, rfl, rfl, ?_⟩
  have hc : c1St.active = false ∨ "T" ≠ c1St.ticker := Or.inl rfl
  rw [onBarCloseFlow, if_pos hc]

/-- Witness for the amended C1: active engine, risk manager paused, close
signal on a bar that does not trigger the local stop/target — exactly one
broker close attempt. -/
def c1wSt : EngineState :=
  { ticker := "T", active := true, longOnly := false, position := some c1Pos,
    activeTf := some "5m", risk := c1Risk }

theorem close_signal_one_attempt_witness :
    (c1wSt.active = true ∧ c1wSt.position = some c1Pos
      ∧ SigDir.isCloseKind .closeLong = true ∧ c1wSt.risk.isPaused = true)
    ∧ (onBarCloseFlow c1Cfg 0 c1wSt c1wSt.ticker "2m" 99 101 100 true
        (some ⟨.closeLong, none, none, none⟩) .err (.filledAt 102)).2 = 1 :=
  ⟨⟨rfl, rfl, rfl, rfl⟩,
    close_signal_one_attempt c1Cfg 0 c1wSt "2m" 99 101 100
      ⟨.closeLong, none, none, none⟩ c1Pos .err (.filledAt 102)
      rfl rfl rfl
      (by rintro ⟨_, h⟩; exact SigDir.noConfusion h)
      (by
        rintro ⟨h, _⟩
        have h2 : ("5m" : String) = "2m" := Option.some.inj h
        exact absurd h2 (by decide))⟩

/-- Claim C10 (confirmed): when the broker's `close_position` returns `None`
during the Close Path, the engine clears its local position and active
timeframe but `record_trade_closed` is never called — the risk state is
untouched, the symbol stays in `open_positions`, and every subsequent
non-close `check_new_order` for that symbol is rejected. -/
theorem broker_flat_close_leaks_risk_entry (cfg : RiskConfig) (today : ℕ)
    (st : EngineState) (pos : Pos) (v : ℚ)
    (hpos : st.position = some pos)
    (hheld : posLookup st.risk.openPositions st.ticker = some v) :
    (closePosition cfg today st .flatNone).1.position = none
    ∧ (closePosition cfg today st .flatNone).1.activeTf = none
    ∧ (closePosition cfg today st .flatNone).1.risk = st.risk
    ∧ ∀ (cfg2 : RiskConfig) (sig : Signal) (price equity buyingPower : ℚ)
        (account : Option Account) (today2 : ℕ) (marketOpen : Bool),
        sig.direction.isCloseKind = false →
        (checkNewOrder cfg2 (closePosition cfg today st .flatNone).1.risk sig
          st.ticker price equity buyingPower account today2 marketOpen).1.1
          = false := by
  have hcp : closePosition cfg today st .flatNone
      = ({ st with position := none, activeTf := none }, 1) := by
    rw [closePosition, hpos]
  rw [hcp]
  refine ⟨rfl, rfl, rfl, ?_⟩
  intro cfg2 sig price equity buyingPower account today2 marketOpen hsig
  by_contra hco
  rw [Bool.not_eq_false] at hco
  have hlk := checkNewOrder_allowed_lookup cfg2 _ sig st.ticker price equity
    buyingPower account today2 marketOpen hsig hco
  rw [show ({ st with position := none, activeTf := none } :
    EngineState).risk.openPositions = st.risk.openPositions from rfl] at hlk
  rw [hheld] at hlk
  exact Option.noConfusion hlk

/-- Witness for C10 at a concrete engine state holding a long position whose
value is recorded with the risk manager. -/
def c10St : EngineState :=
  { ticker := "T", active := true, longOnly := false, position := some c1Pos,
    activeTf := some "2m",
    risk := { peakEquity := 60000, dailyPnl := 0, dailyTrades := 1,
              dailyWins := 0, dailyLosses := 0, currentDate := 0,
              isPaused := false, pauseReason := none,
              openPositions := [("T", 500)] } }

theorem broker_flat_close_leaks_risk_entry_witness :
    (c10St.position = some c1Pos
      ∧ posLookup c10St.risk.openPositions c10St.ticker = some 500)
    ∧ (closePosition c1Cfg 0 c10St .flatNone).1.position = none
    ∧ (closePosition c1Cfg 0 c10St .flatNone).1.activeTf = none
    ∧ (closePosition c1Cfg 0 c10St .flatNone).1.risk = c10St.risk :=
  ⟨⟨rfl, by decide⟩,
    ((broker_flat_close_leaks_risk_entry c1Cfg 0 c10St c1Pos 500 rfl
      (by decide)).1),
    ((broker_flat_close_leaks_risk_entry c1Cfg 0 c10St c1Pos 500 rfl
      (by decide)).2.1),
    ((broker_flat_close_leaks_risk_entry c1Cfg 0 c10St c1Pos 500 rfl
      (by decide)).2.2.1)⟩

/-! ## Entry Arbitration (`MultiTimeframeEngine._evaluate_entries` /
`_score_signal` / `_count_tf_agreement`) -/

/-- The columns of a buffered signal's row read by the scorer
(`_get_rsi` returns `None` when missing, `_get_adx` defaults to 15). -/
structure Row where
  close : ℚ
  rsi : Option ℚ
  adx : Option ℚ
deriving DecidableEq

/-- A slot's buffered entry signal: `last_signal`, `last_signal_row`,
`last_signal_time` (always set together at `on_bar` step 6). -/
structure Buffered where
  sig : Signal
  row : Row
  time : ℚ
deriving DecidableEq

/-- A `_TimeframeSlot` as seen by Entry Arbitration. -/
structure Slot where
  tfMinutes : ℕ
  buffered : Option Buffered
deriving DecidableEq

/-- Signal freshness: `age = (now - last_signal_time).total_seconds();
age < 120`. -/
def isFresh (now : ℚ) (b : Buffered) : Bool := decide (now - b.time < 120)

/-- A slot carries a fresh signal (`slot.last_signal and
slot.last_signal_time` and the age test). -/
def slotFresh (now : ℚ) (s : Slot) : Bool :=
  match s.buffered with
  | some b => isFresh now b
  | none => false

/-- `_count_tf_agreement`: slots with a fresh signal in the given
direction (the slot under evaluation counts toward its own total). -/
def countAgreement (slots : List Slot) (now : ℚ) (d : SigDir) : ℕ :=
  (slots.filter (fun s =>
    match s.buffered with
    | some b => isFresh now b && decide (b.sig.direction = d)
    | none => false)).length

/-- `_score_signal`: hard gates (RSI extreme, agreement floor < 2) return
-999; otherwise ADX + risk/reward + timeframe preference + agreement bonus
+ RSI quality band. -/
def scoreSignal (slots : List Slot) (now : ℚ) (slot : Slot) : ℚ :=
  match slot.buffered with
  | none => -999
  | some b =>
    let sig := b.sig
    let rsi := b.row.rsi
    if (match rsi with
        | some r =>
          (decide (sig.direction = SigDir.long) && decide (r > 80))
          || (decide (sig.direction = SigDir.short) && decide (r < 20))
        | none => false) then -999
    else if countAgreement slots now sig.direction < 2 then -999
    else
      let adx := b.row.adx.getD 15
      let s1 := if adx > 25 then min (adx * 1) 40
                else if adx > 20 then adx * (1/2)
                else adx * (1/5)
      let s2 :=
        match sig.stopLoss, sig.takeProfit with
        | some sl, some tp =>
          -- `if signal.stop_loss and signal.take_profit`: Python truthiness
          if sl ≠ 0 ∧ tp ≠ 0 then
            if |b.row.close - sl| > 0 then
              min (|tp - b.row.close| / |b.row.close - sl| * 10) 30
            else 0
          else 0
        | _, _ => 0
      let s3 := max 0 (20 - (slot.tfMinutes : ℚ) * (3/2))
      let s4 := ((countAgreement slots now sig.direction : ℚ) - 1) * 15
      let s5 :=
        match rsi with
        | some r =>
          if sig.direction = SigDir.long then
            (if r < 70 then (10:ℚ) else if r < 75 then 5 else -5)
          else if sig.direction = SigDir.short then
            (if r > 30 then (10:ℚ) else if r > 25 then 5 else -5)
          else 0
        | none => 0
      s1 + s2 + s3 + s4 + s5

/-- The best-candidate fold of `_evaluate_entries`: `best_score` starts at
-999 and a candidate wins only with a strictly greater score. -/
def pickBest (l : List (Slot × ℚ)) : Option (Slot × ℚ) :=
  l.foldl (fun acc p =>
    match acc with
    | none => if p.2 > -999 then some p else none
    | some q => if p.2 > q.2 then some p else acc) none

/-- `for slot in self.slots.values(): slot.last_signal = None`. -/
def clearSignals (slots : List Slot) : List Slot :=
  slots.map (fun s => { s with buffered := none })

/-- `MultiTimeframeEngine._evaluate_entries`.  Returns the new slot list and
the list of slots through which `_open_position` is invoked (at most one). -/
def evaluateEntries (slots : List Slot) (position : Option Pos) (now : ℚ) :
    List Slot × List Slot :=
  match position with
  | some _ => (clearSignals slots, [])
  | none =>
    let candidates := slots.filter (slotFresh now)
    if candidates = [] then (slots, [])
    else
      let scored := candidates.map (fun s => (s, scoreSignal slots now s))
      match pickBest scored with
      | some p =>
        if p.2 > 0 then (clearSignals slots, [p.1]) else (clearSignals slots, [])
      | none => (clearSignals slots, [])

lemma pickBest_aux (l : List (Slot × ℚ)) (acc : Option (Slot × ℚ)) (p : Slot × ℚ)
    (h : l.foldl (fun acc q =>
      match acc with
      | none => if q.2 > -999 then some q else none
      | some r => if q.2 > r.2 then some q else acc) acc = some p) :
    acc = some p ∨ p ∈ l := by
  induction l generalizing acc with
  | nil => exact Or.inl h
  | cons q rest ih =>
    rcases ih _ h with hstep | hmem
    · rcases acc with _ | r
      · simp only [] at hstep
        by_cases hq : q.2 > -999
        · rw [if_pos hq] at hstep
          exact Or.inr (by rw [← Option.some.inj hstep]; exact List.mem_cons_self q rest)
        · rw [if_neg hq] at hstep
          exact Option.noConfusion hstep
      · simp only [] at hstep
        by_cases hq : q.2 > r.2
        · rw [if_pos hq] at hstep
          exact Or.inr (by rw [← Option.some.inj hstep]; exact List.mem_cons_self q rest)
        · rw [if_neg hq] at hstep
          exact Or.inl hstep
    · exact Or.inr (List.mem_cons_of_mem q hmem)

lemma pickBest_mem (l : List (Slot × ℚ)) (p : Slot × ℚ)
    (h : pickBest l = some p) : p ∈ l := by
  rcases pickBest_aux l none p h with hc | hc
  · exact Option.noConfusion hc
  · exact hc

lemma scoreSignal_pos (slots : List Slot) (now : ℚ) (s : Slot)
    (h : 0 < scoreSignal slots now s) :
    ∃ b, s.buffered = some b ∧ 2 ≤ countAgreement slots now b.sig.direction := by
  rcases hb : s.buffered with _ | b
  · rw [scoreSignal, hb] at h
    norm_num at h
  · refine ⟨b, rfl, ?_⟩
    simp only [scoreSignal, hb] at h
    split_ifs at h <;> first | omega | norm_num at h

lemma clearSignals_buffered (slots : List Slot) (s : Slot)
    (hs : s ∈ clearSignals slots) : s.buffered = none := by
  simp only [clearSignals, List.mem_map] at hs
  obtain ⟨x, _, hx⟩ := hs
  rw [← hx]

/-- Claim C6 (confirmed): whenever Entry Arbitration runs with at least one
fresh buffered signal (as `on_bar` guarantees, having just buffered one), at
most one open request is produced; a request is produced only through a slot
whose buffered signal's score is `> 0` after the hard gates — in particular
at least two slots then carry same-direction non-stale signals — and every
slot's buffered `last_signal` is cleared at the end of the evaluation
regardless of outcome. -/
theorem entry_arbitration (slots : List Slot) (position : Option Pos) (now : ℚ)
    (hfresh : ∃ s ∈ slots, slotFresh now s = true) :
    (evaluateEntries slots position now).2.length ≤ 1
    ∧ (∀ s ∈ (evaluateEntries slots position now).2,
        0 < scoreSignal slots now s
        ∧ ∃ b, s.buffered = some b ∧ 2 ≤ countAgreement slots now b.sig.direction)
    ∧ (∀ s ∈ (evaluateEntries slots position now).1, s.buffered = none) := by
  rcases position with _ | pos
  · have hcand : slots.filter (slotFresh now) ≠ [] := by
      obtain ⟨s, hs, hf⟩ := hfresh
      intro hc
      have hmem : s ∈ slots.filter (slotFresh now) := List.mem_filter.mpr ⟨hs, hf⟩
      rw [hc] at hmem
      exact List.not_mem_nil s hmem
    simp only [evaluateEntries, if_neg hcand]
    rcases hpb : pickBest ((slots.filter (slotFresh now)).map
        (fun s => (s, scoreSignal slots now s))) with _ | p
    · exact ⟨by simp, by simp, fun s hs => clearSignals_buffered slots s hs⟩
    · simp only []
      by_cases hp0 : p.2 > 0
      · rw [if_pos hp0]
        have hmem := pickBest_mem _ p hpb
        simp only [List.mem_map] at hmem
        obtain ⟨c, _, hc⟩ := hmem
        have hscore : scoreSignal slots now p.1 = p.2 := by
          rw [← hc]
        refine ⟨by simp, ?_, fun s hs => clearSignals_buffered slots s hs⟩
        intro s hs
        rw [List.mem_singleton] at hs
        subst hs
        rw [hscore]
        exact ⟨hp0, scoreSignal_pos slots now p.1 (by rw [hscore]; exact hp0)⟩
      · rw [if_neg hp0]
        exact ⟨by simp, by simp, fun s hs => clearSignals_buffered slots s hs⟩
  · exact ⟨by simp [evaluateEntries], by simp [evaluateEntries],
      fun s hs => clearSignals_buffered slots s (by simpa [evaluateEntries] using hs)⟩

/-- Witness slots for C6: 2-minute and 5-minute slots with fresh agreeing
long signals. -/
def c6Slot2 : Slot :=
  ⟨2, some ⟨⟨.long, some 98, some 106, none⟩, ⟨100, some 60, some 30⟩, 0⟩⟩

def c6Slot5 : Slot :=
  ⟨5, some ⟨⟨.long, some 97, some 106, none⟩, ⟨100, some 55, some 28⟩, 0⟩⟩

def c6Slots : List Slot := [c6Slot2, c6Slot5]

theorem entry_arbitration_witness :
    (∃ s ∈ c6Slots, slotFresh 10 s = true)
    ∧ (evaluateEntries c6Slots none 10).2.length ≤ 1 :=
  have hf : slotFresh 10 c6Slot2 = true := by
    norm_num [slotFresh, isFresh, c6Slot2]
  ⟨⟨c6Slot2, by simp [c6Slots], hf⟩,
    (entry_arbitration c6Slots none 10 ⟨c6Slot2, by simp [c6Slots], hf⟩).1⟩

end TradingBot
